import Mathlib

/-!
Verification of the distributed rate-limiting service (Go + Redis Lua).

The development shallowly embeds:

* the two atomic Redis Lua scripts
  (`internal/redis/lua/sliding_window.lua`, `internal/redis/lua/token_bucket.lua`),
  both as pure per-key step functions (`slidingWindowStep`, `tokenBucketStep`)
  and as scripts over a flat Redis keyspace (`swScriptDB`, `tbScriptDB`) in which
  the sliding-window sequence counter lives at the separate key `key ++ ":counter"`,
  exactly as in the Lua source;
* the error classification of `internal/redis/client.go`
  (`shouldFailOpen`, `isNetworkError`, the Go substring helpers);
* the limiter checks of `internal/limiter/sliding_window.go`
  (`SlidingWindowLimiter.Check` / `TokenBucketLimiter.Check`, here
  `swCheckGo` / `tbCheckGo`) including fail-open, response parsing and the
  store-error metric counter;
* the facade `Limiter.Check` of `internal/limiter/limiter.go` (`limiterCheck`).

Lua numbers are modelled exactly: the sliding-window script only ever computes
on integers (modelled by `ℤ`), while the token-bucket script performs fractional
arithmetic (modelled by `ℚ`; the Go layer passes integer milliseconds, so
timestamps stay in `ℤ`).  TTL bookkeeping (`EXPIRE`) changes no stored value and
no claim mentions it, so it is not represented in the state.
-/

namespace RateLimiter

/-! ### Sliding window log: per-key state and atomic step
(`internal/redis/lua/sliding_window.lua`)

A sorted-set entry is `(score, member)`; the script always uses the timestamp as
score and the member string `now .. ':' .. INCR(key .. ':counter')`, which we
model as the pair `(timestamp, sequence)`.  In the per-key view the sequence
counter is carried alongside the log. -/

structure SWState where
  entries : List (ℤ × ℤ)
  counter : ℤ
  deriving DecidableEq

/-- The fresh (never-used) per-key sliding-window state. -/
def SWState.fresh : SWState := ⟨[], 0⟩

/-- One atomic execution of `sliding_window.lua` against one key's state.
`ZREMRANGEBYSCORE key 0 window_start` removes the entries whose score lies in
`[0, now - window]`; `ZCARD` counts the survivors; under capacity the script
runs `INCR` on the sequence counter and `ZADD`s `(now, sequence)`; the reply is
`{allowed, math.max(0, remaining)}`. -/
def slidingWindowStep (capacity window now : ℤ) (st : SWState) :
    (ℤ × ℤ) × SWState :=
  let windowStart := now - window
  let kept := st.entries.filter (fun e => ! decide (0 ≤ e.1 ∧ e.1 ≤ windowStart))
  let currentCount : ℤ := (kept.length : ℤ)
  if currentCount < capacity then
    ((1, max 0 (capacity - currentCount - 1)),
      ⟨kept ++ [(now, st.counter + 1)], st.counter + 1⟩)
  else
    ((0, max 0 (capacity - currentCount)), ⟨kept, st.counter⟩)

/-- Sequential executions of the sliding-window step at the given timestamps
(the store serializes the atomic steps, so any interleaving is such a list). -/
def swRun (capacity window : ℤ) (ts : List ℤ) (st : SWState) :
    List (ℤ × ℤ) × SWState :=
  match ts with
  | [] => ([], st)
  | t :: rest =>
    let r := slidingWindowStep capacity window t st
    let tail := swRun capacity window rest r.2
    (r.1 :: tail.1, tail.2)

/-! ### Token bucket: per-key state and atomic step
(`internal/redis/lua/token_bucket.lua`) -/

structure TBState where
  tokens : ℚ
  lastRefill : ℤ
  deriving DecidableEq

/-- One atomic execution of `token_bucket.lua` against one key's state
(`none` = no persisted hash).  A missing bucket initializes to a full bucket
refilled now; refill adds `elapsedSeconds * refillRate` clamped at capacity;
a token is taken iff at least one whole token is present; the reply is
`{allowed, math.floor(tokens)}`. -/
def tokenBucketStep (capacity refillRate : ℚ) (now : ℤ) (st : Option TBState) :
    (ℤ × ℤ) × TBState :=
  let tokens0 : ℚ := match st with | none => capacity | some s => s.tokens
  let lastRefill : ℤ := match st with | none => now | some s => s.lastRefill
  let elapsedSeconds : ℚ := ((now : ℚ) - (lastRefill : ℚ)) / 1000
  let tokensToAdd : ℚ := elapsedSeconds * refillRate
  let tokens1 : ℚ := min capacity (tokens0 + tokensToAdd)
  if 1 ≤ tokens1 then
    ((1, ⌊tokens1 - 1⌋), ⟨tokens1 - 1, now⟩)
  else
    ((0, ⌊tokens1⌋), ⟨tokens1, now⟩)

/-- Sequential executions of the token-bucket step at the given timestamps. -/
def tbRun (capacity refillRate : ℚ) (ts : List ℤ) (st : Option TBState) :
    List (ℤ × ℤ) × Option TBState :=
  match ts with
  | [] => ([], st)
  | t :: rest =>
    let r := tokenBucketStep capacity refillRate t st
    let tail := tbRun capacity refillRate rest (some r.2)
    (r.1 :: tail.1, tail.2)

/-! ### The Redis keyspace

The scripts address the raw keyspace: the sliding-window script touches the two
Redis keys `key` and `key ++ ":counter"`, the token-bucket script touches `key`.
Each slot holds a dynamically typed Redis value; a command applied to a value of
the wrong type aborts the script with a `WRONGTYPE` error, as in Redis. -/

inductive RedisVal where
  | zset (entries : List (ℤ × ℤ × ℤ))
  | intStr (n : ℤ)
  | hash (tokens : ℚ) (lastRefill : ℤ)
  deriving DecidableEq

def RedisDB : Type := String → Option RedisVal

/-- The empty keyspace. -/
def emptyDB : RedisDB := fun _ => none

def wrongTypeMsg : String :=
  "WRONGTYPE Operation against a key holding the wrong kind of value"

def counterSuffix : String := ":counter"

/-- `ZREMRANGEBYSCORE k lo hi` acting on the single slot it addresses; Redis
treats a missing key as an empty sorted set and deletes a set that becomes
empty. -/
def zremLocal (lo hi : ℤ) : Option RedisVal → Except String (Option RedisVal)
  | none => .ok none
  | some (.zset l) =>
    let kept := l.filter (fun e => ! decide (lo ≤ e.1 ∧ e.1 ≤ hi))
    .ok (if kept.isEmpty then none else some (.zset kept))
  | some _ => .error wrongTypeMsg

/-- `ZCARD k` on its slot. -/
def zcardLocal : Option RedisVal → Except String ℤ
  | none => .ok 0
  | some (.zset l) => .ok (l.length : ℤ)
  | some _ => .error wrongTypeMsg

/-- `INCR k` on its slot. -/
def incrLocal : Option RedisVal → Except String (ℤ × Option RedisVal)
  | none => .ok (1, some (.intStr 1))
  | some (.intStr n) => .ok (n + 1, some (.intStr (n + 1)))
  | some _ => .error wrongTypeMsg

/-- `ZADD k score member` on its slot: update the score if the member exists,
append otherwise. -/
def zaddLocal (score : ℤ) (member : ℤ × ℤ) :
    Option RedisVal → Except String (Option RedisVal)
  | none => .ok (some (.zset [(score, member)]))
  | some (.zset l) =>
    if l.any (fun e => e.2 == member) then
      .ok (some (.zset (l.map (fun e => if e.2 == member then (score, member) else e))))
    else
      .ok (some (.zset (l ++ [(score, member)])))
  | some _ => .error wrongTypeMsg

/-- `HMGET k tokens last_refill` on its slot. -/
def hmgetLocal : Option RedisVal → Except String (Option (ℚ × ℤ))
  | none => .ok none
  | some (.hash t l) => .ok (some (t, l))
  | some _ => .error wrongTypeMsg

/-- `sliding_window.lua` over the keyspace.  A runtime error aborts the script
but keeps the writes already performed (Redis scripts do not roll back).
`EXPIRE` only touches TTL metadata and is not represented. -/
def swScriptDB (key : String) (capacity window now : ℤ) (db : RedisDB) :
    Except String (ℤ × ℤ) × RedisDB :=
  match zremLocal 0 (now - window) (db key) with
  | .error m => (.error m, db)
  | .ok v0 =>
    let db1 : RedisDB := Function.update db key v0
    match zcardLocal (db1 key) with
    | .error m => (.error m, db1)
    | .ok currentCount =>
      if currentCount < capacity then
        match incrLocal (db1 (key ++ counterSuffix)) with
        | .error m => (.error m, db1)
        | .ok sv =>
          let db2 : RedisDB := Function.update db1 (key ++ counterSuffix) sv.2
          match zaddLocal now (now, sv.1) (db2 key) with
          | .error m => (.error m, db2)
          | .ok vz =>
            (.ok (1, max 0 (capacity - currentCount - 1)),
              Function.update db2 key vz)
      else
        (.ok (0, max 0 (capacity - currentCount)), db1)

/-- `token_bucket.lua` over the keyspace: `HMGET`, the bucket computation of
`tokenBucketStep`, then `HMSET` of the updated fields. -/
def tbScriptDB (key : String) (capacity refillRate : ℚ) (now : ℤ) (db : RedisDB) :
    Except String (ℤ × ℤ) × RedisDB :=
  match hmgetLocal (db key) with
  | .error m => (.error m, db)
  | .ok h =>
    let st : Option TBState := h.map (fun p => ⟨p.1, p.2⟩)
    let r := tokenBucketStep capacity refillRate now st
    (.ok r.1, Function.update db key (some (.hash r.2.tokens r.2.lastRefill)))

/-! ### Store client error classification (`internal/redis/client.go`) -/

/-- An error returned by the go-redis `Eval` call: a context deadline, an
explicit context cancellation, or any other error identified (as in the Go
code) by its message string. -/
inductive StoreErr where
  | deadlineExceeded
  | canceled
  | other (msg : String)
  deriving DecidableEq

/-- Go `containsSlow(s, substr)`: scan every offset. -/
def containsSlow (s sub : List Char) : Bool :=
  (List.range (s.length - sub.length + 1)).any
    (fun i => (s.drop i).take sub.length == sub)

/-- Go `contains(s, substr)`. -/
def goContains (s sub : List Char) : Bool :=
  decide (s.length ≥ sub.length) &&
    (s == sub || (decide (s.length > sub.length) && containsSlow s sub))

def netSubstr1 : String := "connection refused"
def netSubstr2 : String := "connection reset"
def netSubstr3 : String := "broken pipe"
def netSubstr4 : String := "i/o timeout"

/-- Go `isNetworkError`: substring match on the error message. -/
def isNetworkError (msg : String) : Bool :=
  goContains msg.toList netSubstr1.toList ||
  goContains msg.toList netSubstr2.toList ||
  goContains msg.toList netSubstr3.toList ||
  goContains msg.toList netSubstr4.toList

/-- Go `shouldFailOpen`: deadline errors fail open, explicit cancellation does
not, anything else falls to the network-error message test. -/
def shouldFailOpen : StoreErr → Bool
  | .deadlineExceeded => true
  | .canceled => false
  | .other m => isNetworkError m

/-! ### `Client.EvalLua` and the limiter checks -/

/-- What the transport did for one `Eval` round trip: either the script was
delivered and executed atomically by the store, or the call failed with the
given error before any result was observed. -/
inductive Wire where
  | delivered
  | failed (e : StoreErr)
  deriving DecidableEq

/-- A value as go-redis returns it from `Eval` (`interface{}`). -/
inductive RVal where
  | int (n : ℤ)
  | str (s : String)
  | arr (xs : List RVal)

/-- A Lua `{allowed, remaining}` table arrives as a 2-element integer array. -/
def encodeResult (r : ℤ × ℤ) : RVal := .arr [.int r.1, .int r.2]

/-- Result of `Client.EvalLua` as seen by the limiter: a reply, a
`FailOpenError`, or a propagated error. -/
inductive EvalRes where
  | ok (v : RVal)
  | failOpen (cause : StoreErr)
  | err (e : StoreErr)

/-- `Client.EvalLua`: run the script if the transport delivers it; classify any
error through `shouldFailOpen`, wrapping fail-open cases in `FailOpenError`.
A script runtime error surfaces as an error whose message is the script's. -/
def evalLuaDB (w : Wire) (run : RedisDB → Except String (ℤ × ℤ) × RedisDB)
    (db : RedisDB) : EvalRes × RedisDB :=
  match w with
  | .failed e => (if shouldFailOpen e then .failOpen e else .err e, db)
  | .delivered =>
    match run db with
    | (.ok r, db1) => (.ok (encodeResult r), db1)
    | (.error m, db1) =>
      (if shouldFailOpen (.other m) then .failOpen (.other m)
       else .err (.other m), db1)

/-- Errors surfaced by the limiter layer, mirroring the Go error values. -/
inductive GoError where
  | emptyKey
  | invalidParams
  | unsupportedAlgorithm (alg : String)
  | checkFailed (alg : String) (cause : StoreErr)
  | badResponseFormat
  | responseParseFailed
  deriving DecidableEq

/-- The `(allowed, remaining, err)` triple a limiter `Check` returns, together
with how often it incremented the `metrics.RedisErrors` counter. -/
structure GoTriple where
  allowed : Bool
  remaining : ℤ
  goErr : Option GoError
  redisErrorsInc : ℕ
  deriving DecidableEq

/-- Parsing of the Lua reply in `Check`: a non-array or wrongly sized reply is
an unexpected response format; a 2-element reply with non-integer elements
fails the `int64` assertions; `allowed` is the comparison with 1. -/
def parseLuaReply (v : RVal) : Except GoError (Bool × ℤ) :=
  match v with
  | .arr [.int a, .int r] => .ok (a == 1, r)
  | .arr xs =>
    if xs.length = 2 then .error .responseParseFailed else .error .badResponseFormat
  | _ => .error .badResponseFormat

/-- Shared tail of both limiter `Check` functions: fail open (incrementing the
store-error counter) on a `FailOpenError`, wrap and propagate other errors,
parse a delivered reply. -/
def handleEvalRes (alg : String) (res : EvalRes) : GoTriple :=
  match res with
  | .failOpen _ => ⟨true, 0, none, 1⟩
  | .err e => ⟨false, 0, some (.checkFailed alg e), 0⟩
  | .ok v =>
    match parseLuaReply v with
    | .ok p => ⟨p.1, p.2, none, 0⟩
    | .error ge => ⟨false, 0, some ge, 0⟩

/-- Structural test used to state response-shape claims: is the reply a
2-element integer array? -/
def isIntPair : RVal → Bool
  | .arr [.int _, .int _] => true
  | _ => false

def algSlidingWindow : String := "sliding_window"
def algTokenBucket : String := "token_bucket"

/-- `SlidingWindowLimiter.Check`: validate, run the script through `EvalLua`,
then fail open / propagate / parse. -/
def swCheckGo (key : String) (capacity windowSeconds nowS : ℤ) (w : Wire)
    (db : RedisDB) : GoTriple × RedisDB :=
  if capacity ≤ 0 ∨ windowSeconds ≤ 0 then
    (⟨false, 0, some .invalidParams, 0⟩, db)
  else
    let res := evalLuaDB w (swScriptDB key capacity windowSeconds nowS) db
    (handleEvalRes algSlidingWindow res.1, res.2)

/-- `TokenBucketLimiter.Check`. -/
def tbCheckGo (key : String) (capacity : ℤ) (refillRate : ℚ) (nowMs : ℤ)
    (w : Wire) (db : RedisDB) : GoTriple × RedisDB :=
  if capacity ≤ 0 ∨ refillRate ≤ 0 then
    (⟨false, 0, some .invalidParams, 0⟩, db)
  else
    let res := evalLuaDB w (tbScriptDB key (capacity : ℚ) refillRate nowMs) db
    (handleEvalRes algTokenBucket res.1, res.2)

/-- A normalized check request as the facade receives it. -/
structure CheckRequest where
  key : String
  algorithm : String
  capacity : ℤ
  refillRate : ℚ
  windowSeconds : ℤ

/-- Conversion of a `Check` triple to the facade's `(*CheckResponse, error)`. -/
def tripleResult (t : GoTriple) : Except GoError (Bool × ℤ) :=
  match t.goErr with
  | some e => .error e
  | none => .ok (t.allowed, t.remaining)

/-- `Limiter.Check` (`internal/limiter/limiter.go`): reject an empty key,
dispatch by algorithm name, reject unknown algorithms.  The second component of
the first projection counts `metrics.RedisErrors` increments. -/
def limiterCheck (req : CheckRequest) (nowMs nowS : ℤ) (w : Wire) (db : RedisDB) :
    (Except GoError (Bool × ℤ) × ℕ) × RedisDB :=
  if req.key = "" then ((.error .emptyKey, 0), db)
  else if req.algorithm = algTokenBucket then
    let r := tbCheckGo req.key req.capacity req.refillRate nowMs w db
    ((tripleResult r.1, r.1.redisErrorsInc), r.2)
  else if req.algorithm = algSlidingWindow then
    let r := swCheckGo req.key req.capacity req.windowSeconds nowS w db
    ((tripleResult r.1, r.1.redisErrorsInc), r.2)
  else ((.error (.unsupportedAlgorithm req.algorithm), 0), db)

/-! ### Spec-side descriptions -/

/-- The spec's description of the entries the sliding-window step keeps:
exactly those with timestamp strictly newer than `now - windowSeconds`. -/
def swSurvivors (window now : ℤ) (entries : List (ℤ × ℤ)) : List (ℤ × ℤ) :=
  entries.filter (fun e => decide (now - window < e.1))

/-- On states whose log timestamps are nonnegative (every state the code
creates, since scores come from the wall clock), the script's
`ZREMRANGEBYSCORE key 0 (now - window)` keeps exactly `swSurvivors`. -/
theorem swStep_filter_eq (window now : ℤ) (entries : List (ℤ × ℤ))
    (hts : ∀ e ∈ entries, 0 ≤ e.1) :
    entries.filter (fun e => ! decide (0 ≤ e.1 ∧ e.1 ≤ now - window)) =
      swSurvivors window now entries := by
  refine List.filter_congr ?_
  intro e he
  have h0 := hts e he
  by_cases hc : now - window < e.1 <;> simp [hc] <;> omega

/-- Claim C1: the atomic sliding-window step removes exactly the entries with
timestamp `≤ now - windowSeconds`, admits iff the survivor count is below
capacity, appends `(now, nextSequence)` with a strictly increasing per-key
sequence (so the new entry collides with no kept entry), and returns
`(allowed, max 0 (capacity - currentCount - (1 if allowed else 0)))`. -/
theorem claim_C1_sliding_window_step (capacity window now : ℤ) (st : SWState)
    (hcap : 0 < capacity) (hwin : 0 < window)
    (hts : ∀ e ∈ st.entries, 0 ≤ e.1)
    (hseq : ∀ e ∈ st.entries, e.2 ≤ st.counter) :
    (slidingWindowStep capacity window now st).1.1 =
      (if ((swSurvivors window now st.entries).length : ℤ) < capacity then 1 else 0) ∧
    (slidingWindowStep capacity window now st).1.2 =
      max 0 (capacity - ((swSurvivors window now st.entries).length : ℤ) -
        (if ((swSurvivors window now st.entries).length : ℤ) < capacity then 1 else 0)) ∧
    (slidingWindowStep capacity window now st).2.entries =
      (if ((swSurvivors window now st.entries).length : ℤ) < capacity
       then swSurvivors window now st.entries ++ [(now, st.counter + 1)]
       else swSurvivors window now st.entries) ∧
    (slidingWindowStep capacity window now st).2.counter =
      (if ((swSurvivors window now st.entries).length : ℤ) < capacity
       then st.counter + 1 else st.counter) ∧
    (((swSurvivors window now st.entries).length : ℤ) < capacity →
      st.counter < (slidingWindowStep capacity window now st).2.counter ∧
      (now, st.counter + 1) ∉ swSurvivors window now st.entries) := by
  have hfil := swStep_filter_eq window now st.entries hts
  by_cases hlt : ((swSurvivors window now st.entries).length : ℤ) < capacity
  · refine ⟨?_, ?_, ?_, ?_, fun _ => ⟨?_, fun hmem => ?_⟩⟩
    · simp only [slidingWindowStep]; rw [hfil]; simp [hlt]
    · simp only [slidingWindowStep]; rw [hfil]; simp [hlt]
    · simp only [slidingWindowStep]; rw [hfil]; simp [hlt]
    · simp only [slidingWindowStep]; rw [hfil]; simp [hlt]
    · simp only [slidingWindowStep]; rw [hfil, if_pos hlt]
      exact lt_add_one _
    · simp only [swSurvivors] at hmem
      have hsub : (now, st.counter + 1) ∈ st.entries :=
        List.mem_of_mem_filter hmem
      have := hseq _ hsub
      omega
  · refine ⟨?_, ?_, ?_, ?_, fun h2 => absurd h2 hlt⟩ <;>
      (simp only [slidingWindowStep]; rw [hfil]; simp [hlt])

/-- Witness for C1 at a concrete state: capacity 2, window 10, `now = 20`,
log `[(5,1),(15,2)]`, counter 2; the entry at time 5 is expired. -/
theorem claim_C1_witness :
    ((0:ℤ) < 2 ∧ (0:ℤ) < 10 ∧
      (∀ e ∈ [((5:ℤ),(1:ℤ)),(15,2)], 0 ≤ e.1) ∧
      (∀ e ∈ [((5:ℤ),(1:ℤ)),(15,2)], e.2 ≤ (2:ℤ))) ∧
    ((slidingWindowStep 2 10 20 ⟨[(5,1),(15,2)], 2⟩).1.1 =
      (if ((swSurvivors 10 20 [(5,1),(15,2)]).length : ℤ) < 2 then 1 else 0) ∧
    (slidingWindowStep 2 10 20 ⟨[(5,1),(15,2)], 2⟩).1.2 =
      max 0 (2 - ((swSurvivors 10 20 [(5,1),(15,2)]).length : ℤ) -
        (if ((swSurvivors 10 20 [(5,1),(15,2)]).length : ℤ) < 2 then 1 else 0)) ∧
    (slidingWindowStep 2 10 20 ⟨[(5,1),(15,2)], 2⟩).2.entries =
      (if ((swSurvivors 10 20 [(5,1),(15,2)]).length : ℤ) < 2
       then swSurvivors 10 20 [(5,1),(15,2)] ++ [(20, 3)]
       else swSurvivors 10 20 [(5,1),(15,2)]) ∧
    (slidingWindowStep 2 10 20 ⟨[(5,1),(15,2)], 2⟩).2.counter =
      (if ((swSurvivors 10 20 [(5,1),(15,2)]).length : ℤ) < 2 then 3 else 2) ∧
    (((swSurvivors 10 20 [(5,1),(15,2)]).length : ℤ) < 2 →
      (2:ℤ) < (slidingWindowStep 2 10 20 ⟨[(5,1),(15,2)], 2⟩).2.counter ∧
      (20, 3) ∉ swSurvivors 10 20 [(5,1),(15,2)])) :=
  ⟨⟨by decide, by decide, by decide, by decide⟩,
    claim_C1_sliding_window_step 2 10 20 ⟨[(5,1),(15,2)], 2⟩
      (by decide) (by decide) (by decide) (by decide)⟩

/-- Claim C5: after any token-bucket step with positive capacity and refill
rate, starting from a fresh key or any code-created state (nonnegative tokens,
refill timestamp not in the future), the persisted token count satisfies
`0 ≤ tokens ≤ capacity`, and the refill timestamp becomes `now`.  The upper
bound holds for arbitrary prior token counts, so a capacity lowered between
calls is honored immediately by the clamp. -/
theorem claim_C5_token_bucket_invariant (capacity refillRate : ℚ) (now : ℤ)
    (st : Option TBState)
    (hcap : 0 < capacity) (hrate : 0 < refillRate)
    (hwf : ∀ s, st = some s → 0 ≤ s.tokens ∧ s.lastRefill ≤ now) :
    0 ≤ (tokenBucketStep capacity refillRate now st).2.tokens ∧
    (tokenBucketStep capacity refillRate now st).2.tokens ≤ capacity ∧
    (tokenBucketStep capacity refillRate now st).2.lastRefill = now := by
  cases st with
  | none =>
    simp only [tokenBucketStep, sub_self, zero_div, zero_mul, add_zero, min_self]
    split_ifs with h
    · exact ⟨by show (0:ℚ) ≤ capacity - 1; linarith,
        by show capacity - 1 ≤ capacity; linarith, rfl⟩
    · exact ⟨le_of_lt hcap, le_refl _, rfl⟩
  | some s =>
    obtain ⟨h0, hl⟩ := hwf s rfl
    have hnl : (s.lastRefill : ℚ) ≤ (now : ℚ) := by exact_mod_cast hl
    have ha : (0:ℚ) ≤ ((now : ℚ) - (s.lastRefill : ℚ)) / 1000 * refillRate := by
      apply mul_nonneg (div_nonneg (by linarith) (by norm_num)) (le_of_lt hrate)
    have hmin1 : min capacity (s.tokens + ((now : ℚ) - (s.lastRefill : ℚ)) / 1000 * refillRate) ≤ capacity :=
      min_le_left _ _
    have hmin0 : 0 ≤ min capacity (s.tokens + ((now : ℚ) - (s.lastRefill : ℚ)) / 1000 * refillRate) :=
      le_min (le_of_lt hcap) (by linarith)
    simp only [tokenBucketStep]
    split_ifs with h
    · refine ⟨?_, ?_, rfl⟩
      · show (0:ℚ) ≤ min capacity (s.tokens + ((now : ℚ) - (s.lastRefill : ℚ)) / 1000 * refillRate) - 1
        linarith
      · show min capacity (s.tokens + ((now : ℚ) - (s.lastRefill : ℚ)) / 1000 * refillRate) - 1 ≤ capacity
        linarith
    · exact ⟨hmin0, hmin1, rfl⟩

/-- Witness for C5: fresh key, capacity 2, rate 1, `now = 0`. -/
theorem claim_C5_witness :
    ((0:ℚ) < 2 ∧ (0:ℚ) < 1) ∧
    (0 ≤ (tokenBucketStep 2 1 0 none).2.tokens ∧
      (tokenBucketStep 2 1 0 none).2.tokens ≤ 2 ∧
      (tokenBucketStep 2 1 0 none).2.lastRefill = 0) :=
  ⟨⟨by decide, by decide⟩,
    claim_C5_token_bucket_invariant 2 1 0 none (by decide) (by decide)
      (fun s hs => by cases hs)⟩

/-- Claim C10: whenever either atomic step denies a request, it reports zero
remaining — the token bucket because the (nonnegative) token count is below 1
so its floor is 0, the sliding window because `capacity - currentCount ≤ 0` is
clamped by `max 0`.  The token-bucket half assumes a code-created prior state
and a non-decreasing wall clock. -/
theorem claim_C10_denied_reports_zero :
    (∀ (capacity refillRate : ℚ) (now : ℤ) (st : Option TBState),
      0 < capacity → 0 < refillRate →
      (∀ s, st = some s → 0 ≤ s.tokens ∧ s.lastRefill ≤ now) →
      (tokenBucketStep capacity refillRate now st).1.1 = 0 →
      (tokenBucketStep capacity refillRate now st).1.2 = 0) ∧
    (∀ (capacity window now : ℤ) (st : SWState),
      (slidingWindowStep capacity window now st).1.1 = 0 →
      (slidingWindowStep capacity window now st).1.2 = 0) := by
  constructor
  · intro capacity refillRate now st hcap hrate hwf hden
    cases st with
    | none =>
      simp only [tokenBucketStep, sub_self, zero_div, zero_mul, add_zero, min_self] at hden ⊢
      split_ifs at hden ⊢ with h
      · exact absurd hden (by norm_num)
      · have h0 : (0:ℚ) ≤ capacity := le_of_lt hcap
        have h1 : capacity < 1 := not_le.mp h
        rw [Int.floor_eq_zero_iff]
        exact ⟨h0, h1⟩
    | some s =>
      obtain ⟨h0, hl⟩ := hwf s rfl
      have hnl : (s.lastRefill : ℚ) ≤ (now : ℚ) := by exact_mod_cast hl
      have ha : (0:ℚ) ≤ ((now : ℚ) - (s.lastRefill : ℚ)) / 1000 * refillRate := by
        apply mul_nonneg (div_nonneg (by linarith) (by norm_num)) (le_of_lt hrate)
      have hmin0 : 0 ≤ min capacity (s.tokens + ((now : ℚ) - (s.lastRefill : ℚ)) / 1000 * refillRate) :=
        le_min (le_of_lt hcap) (by linarith)
      simp only [tokenBucketStep] at hden ⊢
      split_ifs at hden ⊢ with h
      · exact absurd hden (by norm_num)
      · rw [Int.floor_eq_zero_iff]
        exact ⟨hmin0, not_le.mp h⟩
  · intro capacity window now st hden
    simp only [slidingWindowStep] at hden ⊢
    split_ifs at hden ⊢ with h
    · exact absurd hden (by norm_num)
    · show max (0:ℤ) _ = 0
      exact max_eq_left (by omega)

/-- Witness for C10: a drained bucket (`tokens = 0`) denies with remaining 0;
a full window (capacity 1, one live entry) denies with remaining 0. -/
theorem claim_C10_witness :
    (tokenBucketStep 1 1 0 (some ⟨0, 0⟩)).1.2 = 0 ∧
    (slidingWindowStep 1 10 20 ⟨[(15, 1)], 1⟩).1.2 = 0 :=
  ⟨claim_C10_denied_reports_zero.1 1 1 0 (some ⟨0, 0⟩) (by decide) (by decide)
      (fun s hs => by cases hs; exact ⟨le_refl _, le_refl _⟩)
      (by norm_num [tokenBucketStep]),
    claim_C10_denied_reports_zero.2 1 10 20 ⟨[(15, 1)], 1⟩ (by decide)⟩

/-! ### Burst runs from a fresh key

Both algorithms, run sequentially from a fresh key inside a burst (token
bucket: total refill below one token; sliding window: all checks within one
window), produce the same decision trace: request `i` (0-based) is admitted
with `capacity - i - 1` remaining iff `i < capacity`, and denied with 0
remaining otherwise. -/

/-- The expected `(allowed, remaining)` of the `j`-th request of a burst. -/
def burstFormula (C : ℤ) (j : ℕ) : ℤ × ℤ :=
  if (j : ℤ) < C then (1, C - (j : ℤ) - 1) else (0, 0)

lemma tbRun_cons (capacity refillRate : ℚ) (t : ℤ) (rest : List ℤ)
    (st : Option TBState) :
    (tbRun capacity refillRate (t :: rest) st).1 =
      (tokenBucketStep capacity refillRate t st).1 ::
        (tbRun capacity refillRate rest
          (some (tokenBucketStep capacity refillRate t st).2)).1 := rfl

lemma swRun_cons (capacity window : ℤ) (t : ℤ) (rest : List ℤ) (st : SWState) :
    (swRun capacity window (t :: rest) st).1 =
      (slidingWindowStep capacity window t st).1 ::
        (swRun capacity window rest (slidingWindowStep capacity window t st).2).1 := rfl

lemma range_map_burst_shift (C : ℤ) (j n : ℕ) :
    (List.range (n + 1)).map (fun i => burstFormula C (j + i)) =
      burstFormula C j :: (List.range n).map (fun i => burstFormula C (j + 1 + i)) := by
  rw [List.range_succ_eq_map, List.map_cons, List.map_map]
  congr 1
  refine List.map_congr_left ?_
  intro i _
  show burstFormula C (j + (i + 1)) = burstFormula C (j + 1 + i)
  congr 1
  omega

/-- Invariant induction for token-bucket runs: starting `j` requests into a
burst with tokens `x` between `C - j` (or 0 once `j ≥ C`) and that bound plus
the refill slack `s` accumulated so far, and with total slack staying below
one token, the remaining trace follows `burstFormula`. -/
lemma tbRun_go (C : ℤ) (rate : ℚ) (hC : 1 ≤ C) (hrate : 0 < rate) :
    ∀ (ts : List ℤ) (j : ℕ) (x : ℚ) (t0 : ℤ) (s : ℚ),
      0 ≤ s →
      (∀ u ∈ ts, t0 ≤ u) →
      List.Pairwise (fun a b => a ≤ b) ts →
      (∀ u ∈ ts, s + ((u : ℚ) - (t0 : ℚ)) / 1000 * rate < 1) →
      ((j : ℤ) < C → ((C : ℚ) - (j : ℚ) ≤ x ∧ x ≤ (C : ℚ) - (j : ℚ) + s)) →
      (C ≤ (j : ℤ) → (0 ≤ x ∧ x ≤ s)) →
      (tbRun (C : ℚ) rate ts (some ⟨x, t0⟩)).1 =
        (List.range ts.length).map (fun i => burstFormula C (j + i)) := by
  intro ts
  induction ts with
  | nil => intro j x t0 s _ _ _ _ _ _; simp [tbRun]
  | cons t rest ih =>
    intro j x t0 s hs hlo hpw hbud hlt hge
    obtain ⟨hple, hpw2⟩ := List.pairwise_cons.mp hpw
    have hlot : t0 ≤ t := hlo t (List.mem_cons_self t rest)
    have hQle : (t0 : ℚ) ≤ (t : ℚ) := by exact_mod_cast hlot
    have hCQ : (1 : ℚ) ≤ (C : ℚ) := by exact_mod_cast hC
    have ha : (0:ℚ) ≤ ((t : ℚ) - (t0 : ℚ)) / 1000 * rate :=
      mul_nonneg (div_nonneg (by linarith) (by norm_num)) (le_of_lt hrate)
    have hbt : s + ((t : ℚ) - (t0 : ℚ)) / 1000 * rate < 1 :=
      hbud t (List.mem_cons_self t rest)
    have hbud2 : ∀ u ∈ rest,
        (s + ((t : ℚ) - (t0 : ℚ)) / 1000 * rate) + ((u : ℚ) - (t : ℚ)) / 1000 * rate < 1 := by
      intro u hu
      have h1 := hbud u (List.mem_cons_of_mem _ hu)
      have h2 : ((t:ℚ) - (t0:ℚ)) / 1000 * rate + ((u:ℚ) - (t:ℚ)) / 1000 * rate
          = ((u:ℚ) - (t0:ℚ)) / 1000 * rate := by ring
      linarith
    have hs2 : (0:ℚ) ≤ s + ((t : ℚ) - (t0 : ℚ)) / 1000 * rate := by linarith
    rw [tbRun_cons, List.length_cons, range_map_burst_shift]
    by_cases hj : (j : ℤ) < C
    · obtain ⟨hx1, hx2⟩ := hlt hj
      have hj1 : ((j : ℚ)) + 1 ≤ (C : ℚ) := by exact_mod_cast Int.add_one_le_iff.mpr hj
      have h1min : (1:ℚ) ≤ min (C:ℚ) (x + ((t : ℚ) - (t0 : ℚ)) / 1000 * rate) :=
        le_min (by linarith) (by linarith)
      have hminlow : (C:ℚ) - (j:ℚ) ≤ min (C:ℚ) (x + ((t : ℚ) - (t0 : ℚ)) / 1000 * rate) :=
        le_min (by linarith) (by linarith)
      have hminup : min (C:ℚ) (x + ((t : ℚ) - (t0 : ℚ)) / 1000 * rate)
          ≤ x + ((t : ℚ) - (t0 : ℚ)) / 1000 * rate := min_le_right _ _
      have hfl : ⌊min (C:ℚ) (x + ((t:ℚ) - (t0:ℚ)) / 1000 * rate) - 1⌋ = C - (j:ℤ) - 1 := by
        rw [Int.floor_eq_iff]
        constructor
        · push_cast
          linarith
        · push_cast
          linarith
      have hstep : tokenBucketStep (C:ℚ) rate t (some ⟨x, t0⟩)
          = ((1, C - (j:ℤ) - 1),
             ⟨min (C:ℚ) (x + ((t : ℚ) - (t0 : ℚ)) / 1000 * rate) - 1, t⟩) := by
        simp only [tokenBucketStep]
        rw [if_pos h1min, hfl]
      rw [hstep]
      dsimp only
      rw [show burstFormula C j = (1, C - (j:ℤ) - 1) from if_pos hj]
      congr 1
      refine ih (j + 1) _ t (s + ((t : ℚ) - (t0 : ℚ)) / 1000 * rate)
        hs2 hple hpw2 hbud2 ?_ ?_
      · intro h2
        push_cast
        constructor
        · linarith
        · linarith
      · intro h2
        have hCj : C = (j : ℤ) + 1 := by omega
        have hCjQ : (C:ℚ) = (j:ℚ) + 1 := by exact_mod_cast hCj
        constructor
        · linarith
        · linarith
    · obtain ⟨hx0, hxs⟩ := hge (by omega)
      have hxa1 : x + ((t : ℚ) - (t0 : ℚ)) / 1000 * rate < 1 := by linarith
      have hminr : min (C:ℚ) (x + ((t : ℚ) - (t0 : ℚ)) / 1000 * rate)
          = x + ((t : ℚ) - (t0 : ℚ)) / 1000 * rate := min_eq_right (by linarith)
      have hfl0 : ⌊x + ((t : ℚ) - (t0 : ℚ)) / 1000 * rate⌋ = 0 := by
        rw [Int.floor_eq_zero_iff]
        exact ⟨by linarith, hxa1⟩
      have hstep : tokenBucketStep (C:ℚ) rate t (some ⟨x, t0⟩)
          = ((0, 0), ⟨x + ((t : ℚ) - (t0 : ℚ)) / 1000 * rate, t⟩) := by
        simp only [tokenBucketStep]
        rw [hminr, if_neg (by linarith), hfl0]
      rw [hstep]
      dsimp only
      rw [show burstFormula C j = (0, 0) from if_neg hj]
      congr 1
      refine ih (j + 1) _ t (s + ((t : ℚ) - (t0 : ℚ)) / 1000 * rate)
        hs2 hple hpw2 hbud2 ?_ ?_
      · intro h2
        exact absurd h2 (by omega)
      · intro _
        exact ⟨by linarith, by linarith⟩

/-- Invariant induction for sliding-window runs: `j` requests into a burst in
which any two check times are less than one window apart, the log holds
exactly `min j C` live entries and none of them can expire at any remaining
check time, so the remaining trace follows `burstFormula`. -/
lemma swRun_go (C w : ℤ) (hC : 1 ≤ C) (hw : 0 < w) :
    ∀ (ts : List ℤ) (j : ℕ) (st : SWState),
      (∀ u ∈ ts, ∀ v ∈ ts, v - w < u) →
      (∀ e ∈ st.entries, ∀ u ∈ ts, u - w < e.1) →
      ((st.entries.length : ℤ) = min (j : ℤ) C) →
      (swRun C w ts st).1 = (List.range ts.length).map (fun i => burstFormula C (j + i)) := by
  intro ts
  induction ts with
  | nil => intro j st _ _ _; simp [swRun]
  | cons t rest ih =>
    intro j st hspan hent hlen
    have hkeep : st.entries.filter (fun e => ! decide (0 ≤ e.1 ∧ e.1 ≤ t - w)) = st.entries := by
      rw [List.filter_eq_self]
      intro e he
      have h1 := hent e he t (List.mem_cons_self t rest)
      simp only [Bool.not_eq_true', decide_eq_false_iff_not]
      omega
    have hspan2 : ∀ u ∈ rest, ∀ v ∈ rest, v - w < u := fun u hu v hv =>
      hspan u (List.mem_cons_of_mem _ hu) v (List.mem_cons_of_mem _ hv)
    rw [swRun_cons, List.length_cons, range_map_burst_shift]
    by_cases hj : (j : ℤ) < C
    · have hcnt : (st.entries.length : ℤ) = (j : ℤ) := by
        rw [hlen, min_eq_left (le_of_lt hj)]
      have hstep : slidingWindowStep C w t st
          = ((1, C - (j:ℤ) - 1), ⟨st.entries ++ [(t, st.counter + 1)], st.counter + 1⟩) := by
        simp only [slidingWindowStep]
        rw [hkeep, hcnt, if_pos hj, max_eq_right (by omega : (0:ℤ) ≤ C - (j:ℤ) - 1)]
      rw [hstep]
      dsimp only
      rw [show burstFormula C j = (1, C - (j:ℤ) - 1) from if_pos hj]
      congr 1
      refine ih (j + 1) ⟨st.entries ++ [(t, st.counter + 1)], st.counter + 1⟩
        hspan2 ?_ ?_
      · intro e he u hu
        rcases List.mem_append.mp he with h1 | h1
        · exact hent e h1 u (List.mem_cons_of_mem _ hu)
        · have h2 : e = (t, st.counter + 1) := List.mem_singleton.mp h1
          subst h2
          exact hspan t (List.mem_cons_self t rest) u (List.mem_cons_of_mem _ hu)
      · show ((st.entries ++ [(t, st.counter + 1)]).length : ℤ) = min (((j + 1 : ℕ)) : ℤ) C
        rw [List.length_append, List.length_singleton]
        push_cast
        rw [min_eq_left (by omega : (j:ℤ) + 1 ≤ C)]
        omega
    · have hcnt : (st.entries.length : ℤ) = C := by
        rw [hlen, min_eq_right (by omega : C ≤ (j:ℤ))]
      have hstep : slidingWindowStep C w t st
          = ((0, 0), ⟨st.entries, st.counter⟩) := by
        simp only [slidingWindowStep]
        rw [hkeep, hcnt, if_neg (lt_irrefl C), sub_self, max_self]
      rw [hstep]
      dsimp only
      rw [show burstFormula C j = (0, 0) from if_neg hj]
      congr 1
      refine ih (j + 1) ⟨st.entries, st.counter⟩
        hspan2 (fun e he u hu => hent e he u (List.mem_cons_of_mem _ hu)) ?_
      show ((st.entries.length : ℤ)) = min (((j + 1 : ℕ)) : ℤ) C
      push_cast
      rw [min_eq_right (by omega : C ≤ (j:ℤ) + 1)]
      omega

/-- A first token-bucket check against a missing key behaves exactly like one
against a just-initialized full bucket. -/
lemma tbStep_none_eq (capacity rate : ℚ) (t : ℤ) :
    tokenBucketStep capacity rate t none =
      tokenBucketStep capacity rate t (some ⟨capacity, t⟩) := rfl

/-- Token-bucket burst from a fresh key: nondecreasing check times, total
elapsed-times-rate below one token (1000 because times are milliseconds). -/
lemma tbRun_fresh (C : ℤ) (rate : ℚ) (t : ℤ) (ts : List ℤ)
    (hC : 1 ≤ C) (hrate : 0 < rate)
    (hpw : List.Pairwise (fun a b => a ≤ b) (t :: ts))
    (hbud : ∀ u ∈ ts, ((u : ℚ) - (t : ℚ)) * rate < 1000) :
    (tbRun (C : ℚ) rate (t :: ts) none).1 =
      (List.range (t :: ts).length).map (fun i => burstFormula C i) := by
  have h0 : (tbRun (C:ℚ) rate (t :: ts) none).1
      = (tbRun (C:ℚ) rate (t :: ts) (some ⟨(C:ℚ), t⟩)).1 := by
    rw [tbRun_cons, tbRun_cons, tbStep_none_eq]
  have hCQ : (1 : ℚ) ≤ (C : ℚ) := by exact_mod_cast hC
  have hbud1 : ∀ u ∈ t :: ts, (0:ℚ) + ((u : ℚ) - (t : ℚ)) / 1000 * rate < 1 := by
    intro u hu
    rcases List.mem_cons.mp hu with h1 | h1
    · subst h1
      norm_num
    · have h2 := hbud u h1
      have h3 : ((u:ℚ) - (t:ℚ)) / 1000 * rate = ((u:ℚ) - (t:ℚ)) * rate / 1000 := by ring
      rw [zero_add, h3]
      rw [div_lt_one (by norm_num : (0:ℚ) < 1000)]
      exact h2
  have h1 := tbRun_go C rate hC hrate (t :: ts) 0 (C:ℚ) t 0 le_rfl
    (fun u hu => by
      rcases List.mem_cons.mp hu with h2 | h2
      · omega
      · exact le_trans (le_refl t) ((List.pairwise_cons.mp hpw).1 u h2))
    hpw hbud1
    (fun _ => by norm_num)
    (fun h2 => absurd h2 (by omega))
  rw [h0, h1]
  refine List.map_congr_left ?_
  intro i _
  rw [Nat.zero_add]

/-- Sliding-window burst from a fresh key: any two check times less than one
window apart. -/
lemma swRun_fresh (C w c0 : ℤ) (ts : List ℤ) (hC : 1 ≤ C) (hw : 0 < w)
    (hspan : ∀ u ∈ ts, ∀ v ∈ ts, v - w < u) :
    (swRun C w ts ⟨[], c0⟩).1 = (List.range ts.length).map (fun i => burstFormula C i) := by
  have h1 := swRun_go C w hC hw ts 0 ⟨[], c0⟩ hspan (by simp)
    (by simpa using (min_eq_left (by omega : (0:ℤ) ≤ C)).symm)
  rw [h1]
  refine List.map_congr_left ?_
  intro i _
  rw [Nat.zero_add]

/-- Claim C2: from a fresh key, under the burst preconditions (token bucket:
no full token refilled during the burst; sliding window: all checks within one
window), the decision/remaining trace is exactly `burstFormula`: the first
`capacity` requests are admitted (request `i` leaving `capacity - i - 1`) and
every later one — in particular the `(capacity+1)`-th — is rejected. -/
theorem claim_C2_capacity_ceiling :
    (∀ (C : ℤ) (rate : ℚ) (t : ℤ) (ts : List ℤ),
      1 ≤ C → 0 < rate →
      List.Pairwise (fun a b => a ≤ b) (t :: ts) →
      (∀ u ∈ ts, ((u : ℚ) - (t : ℚ)) * rate < 1000) →
      (tbRun (C : ℚ) rate (t :: ts) none).1 =
        (List.range (t :: ts).length).map (fun i => burstFormula C i)) ∧
    (∀ (C w c0 : ℤ) (ts : List ℤ),
      1 ≤ C → 0 < w →
      (∀ u ∈ ts, ∀ v ∈ ts, v - w < u) →
      (swRun C w ts ⟨[], c0⟩).1 =
        (List.range ts.length).map (fun i => burstFormula C i)) :=
  ⟨fun C rate t ts hC hrate hpw hbud => tbRun_fresh C rate t ts hC hrate hpw hbud,
   fun C w c0 ts hC hw hspan => swRun_fresh C w c0 ts hC hw hspan⟩

/-- Witness for C2: one check against each fresh key (`C = 1`). -/
theorem claim_C2_witness :
    ((tbRun ((1:ℤ) : ℚ) 1 [0] none).1 =
      (List.range 1).map (fun i => burstFormula 1 i)) ∧
    ((swRun 1 10 [0] ⟨[], 0⟩).1 =
      (List.range 1).map (fun i => burstFormula 1 i)) :=
  ⟨claim_C2_capacity_ceiling.1 1 1 0 [] (by decide) (by decide)
      (by simp) (by simp),
   claim_C2_capacity_ceiling.2 1 10 0 [0] (by decide) (by decide) (by decide)⟩

/-- Claim C6: token bucket with capacity 5 and refill rate 1, seven sequential
checks fast enough that no full token is refilled during the burst:
`allowed = [T,T,T,T,T,F,F]`, `remaining = [4,3,2,1,0,0,0]`. -/
theorem claim_C6_literal_scenario (t1 t2 t3 t4 t5 t6 t7 : ℤ)
    (hpw : List.Pairwise (fun a b => a ≤ b) [t1, t2, t3, t4, t5, t6, t7])
    (hfast : ∀ u ∈ [t2, t3, t4, t5, t6, t7], ((u : ℚ) - (t1 : ℚ)) * 1 < 1000) :
    (tbRun 5 1 [t1, t2, t3, t4, t5, t6, t7] none).1 =
      [(1, 4), (1, 3), (1, 2), (1, 1), (1, 0), (0, 0), (0, 0)] := by
  have h := tbRun_fresh 5 1 t1 [t2, t3, t4, t5, t6, t7] (by decide) (by decide) hpw hfast
  have h5 : ((5:ℤ) : ℚ) = (5 : ℚ) := by norm_num
  rw [h5] at h
  rw [h]
  show (List.range 7).map (fun i => burstFormula 5 i) =
    [(1, 4), (1, 3), (1, 2), (1, 1), (1, 0), (0, 0), (0, 0)]
  decide

/-- Witness for C6: seven instantaneous checks. -/
theorem claim_C6_witness :
    (tbRun 5 1 [0, 0, 0, 0, 0, 0, 0] none).1 =
      [(1, 4), (1, 3), (1, 2), (1, 1), (1, 0), (0, 0), (0, 0)] :=
  claim_C6_literal_scenario 0 0 0 0 0 0 0 (by simp) (by norm_num)

lemma countP_range_burst_allowed (C : ℤ) :
    ∀ N : ℕ, (List.range N).countP (fun i => decide ((burstFormula C i).1 = 1))
      = min C.toNat N := by
  intro N
  induction N with
  | zero => simp
  | succ n ih =>
    rw [List.range_succ, List.countP_append, ih]
    by_cases h : (n : ℤ) < C
    · simp only [List.countP_cons, List.countP_nil, burstFormula, if_pos h]
      simp
      omega
    · simp only [List.countP_cons, List.countP_nil, burstFormula, if_neg h]
      simp
      omega

lemma countP_range_burst_blocked (C : ℤ) :
    ∀ N : ℕ, (List.range N).countP (fun i => decide ((burstFormula C i).1 = 0))
      = N - min C.toNat N := by
  intro N
  induction N with
  | zero => simp
  | succ n ih =>
    rw [List.range_succ, List.countP_append, ih]
    by_cases h : (n : ℤ) < C
    · simp only [List.countP_cons, List.countP_nil, burstFormula, if_pos h]
      simp
      omega
    · simp only [List.countP_cons, List.countP_nil, burstFormula, if_neg h]
      simp
      omega

/-- Claim C9: the store serializes the atomic steps of `N` concurrent checks
against one fresh key into some sequential order; whenever the serialized
burst satisfies the burst preconditions (in particular when all `N` steps are
executed at the same instant) and `N > capacity`, exactly `capacity` checks
are admitted and `N - capacity` are denied — no lost updates, no drift. -/
theorem claim_C9_atomic_concurrency :
    (∀ (C : ℤ) (rate : ℚ) (t : ℤ) (ts : List ℤ),
      1 ≤ C → 0 < rate →
      List.Pairwise (fun a b => a ≤ b) (t :: ts) →
      (∀ u ∈ ts, ((u : ℚ) - (t : ℚ)) * rate < 1000) →
      C.toNat < (t :: ts).length →
      ((tbRun (C : ℚ) rate (t :: ts) none).1.countP (fun r => decide (r.1 = 1)) = C.toNat ∧
       (tbRun (C : ℚ) rate (t :: ts) none).1.countP (fun r => decide (r.1 = 0)) =
         (t :: ts).length - C.toNat)) ∧
    (∀ (C w c0 : ℤ) (ts : List ℤ),
      1 ≤ C → 0 < w →
      (∀ u ∈ ts, ∀ v ∈ ts, v - w < u) →
      C.toNat < ts.length →
      ((swRun C w ts ⟨[], c0⟩).1.countP (fun r => decide (r.1 = 1)) = C.toNat ∧
       (swRun C w ts ⟨[], c0⟩).1.countP (fun r => decide (r.1 = 0)) =
         ts.length - C.toNat)) := by
  constructor
  · intro C rate t ts hC hrate hpw hbud hN
    rw [tbRun_fresh C rate t ts hC hrate hpw hbud, List.countP_map, List.countP_map]
    simp only [Function.comp_def]
    rw [countP_range_burst_allowed, countP_range_burst_blocked]
    omega
  · intro C w c0 ts hC hw hspan hN
    rw [swRun_fresh C w c0 ts hC hw hspan, List.countP_map, List.countP_map]
    simp only [Function.comp_def]
    rw [countP_range_burst_allowed, countP_range_burst_blocked]
    omega

/-- Witness for C9: two simultaneous checks, capacity 1: one admitted, one
denied, for both algorithms. -/
theorem claim_C9_witness :
    ((tbRun ((1:ℤ) : ℚ) 1 [0, 0] none).1.countP (fun r => decide (r.1 = 1)) = (1:ℤ).toNat ∧
     (tbRun ((1:ℤ) : ℚ) 1 [0, 0] none).1.countP (fun r => decide (r.1 = 0)) =
       ([0, 0] : List ℤ).length - (1:ℤ).toNat) ∧
    ((swRun 1 10 [0, 0] ⟨[], 0⟩).1.countP (fun r => decide (r.1 = 1)) = (1:ℤ).toNat ∧
     (swRun 1 10 [0, 0] ⟨[], 0⟩).1.countP (fun r => decide (r.1 = 0)) =
       ([0, 0] : List ℤ).length - (1:ℤ).toNat) :=
  ⟨claim_C9_atomic_concurrency.1 1 1 0 [0] (by decide) (by decide)
      (by simp) (by norm_num) (by decide),
   claim_C9_atomic_concurrency.2 1 10 0 [0, 0] (by decide) (by decide)
      (by decide) (by decide)⟩

/-! ### Fail-open and error-classification claims -/

/-- Claim C3: with valid parameters, a store call failing with an error the
client classifies as fail-open (`Unavailable`) makes both checks return
`allowed = true, remaining = 0` with no error, increment the store-error
counter once, and leave the keyspace untouched. -/
theorem claim_C3_fail_open (key : String) (capSW winS nowS capTB nowMs : ℤ)
    (rate : ℚ) (e : StoreErr) (db : RedisDB)
    (h1 : 0 < capSW) (h2 : 0 < winS) (h3 : 0 < capTB) (h4 : 0 < rate)
    (he : shouldFailOpen e = true) :
    swCheckGo key capSW winS nowS (.failed e) db = (⟨true, 0, none, 1⟩, db) ∧
    tbCheckGo key capTB rate nowMs (.failed e) db = (⟨true, 0, none, 1⟩, db) := by
  constructor
  · have hv : ¬ (capSW ≤ 0 ∨ winS ≤ 0) := by omega
    simp [swCheckGo, evalLuaDB, handleEvalRes, hv, he]
  · have hv : ¬ (capTB ≤ 0 ∨ rate ≤ 0) := by
      push_neg
      exact ⟨h3, h4⟩
    simp [tbCheckGo, evalLuaDB, handleEvalRes, hv, he]

/-- Witness for C3: a timeout against a fresh store. -/
theorem claim_C3_witness :
    swCheckGo ("k") 1 1 0 (.failed .deadlineExceeded) emptyDB =
      (⟨true, 0, none, 1⟩, emptyDB) ∧
    tbCheckGo ("k") 1 1 0 (.failed .deadlineExceeded) emptyDB =
      (⟨true, 0, none, 1⟩, emptyDB) :=
  claim_C3_fail_open ("k") 1 1 0 1 0 1 .deadlineExceeded emptyDB
    (by decide) (by decide) (by decide) (by decide) rfl

/-- Claim C4: fail-open happens exactly for the `Unavailable` classification —
a timeout or a network/transport error message; an already-cancelled context
propagates a non-fail-open error with `allowed = false`, and a reply that is
not a 2-element integer tuple yields `allowed = false` with a propagated
error.  Neither returns `allowed = true`. -/
theorem claim_C4_fail_open_iff_unavailable :
    (∀ e : StoreErr, shouldFailOpen e = true ↔
      (e = .deadlineExceeded ∨ ∃ m, e = .other m ∧ isNetworkError m = true)) ∧
    (∀ (key : String) (cap win nowS : ℤ) (e : StoreErr) (db : RedisDB),
      0 < cap → 0 < win →
      ((swCheckGo key cap win nowS (.failed e) db).1 = ⟨true, 0, none, 1⟩ ↔
        shouldFailOpen e = true)) ∧
    (∀ (key : String) (cap : ℤ) (rate : ℚ) (nowMs : ℤ) (e : StoreErr) (db : RedisDB),
      0 < cap → 0 < rate →
      ((tbCheckGo key cap rate nowMs (.failed e) db).1 = ⟨true, 0, none, 1⟩ ↔
        shouldFailOpen e = true)) ∧
    (shouldFailOpen .canceled = false) ∧
    (∀ (key : String) (cap win nowS : ℤ) (db : RedisDB),
      0 < cap → 0 < win →
      (swCheckGo key cap win nowS (.failed .canceled) db).1 =
        ⟨false, 0, some (.checkFailed algSlidingWindow .canceled), 0⟩) ∧
    (∀ (key : String) (cap : ℤ) (rate : ℚ) (nowMs : ℤ) (db : RedisDB),
      0 < cap → 0 < rate →
      (tbCheckGo key cap rate nowMs (.failed .canceled) db).1 =
        ⟨false, 0, some (.checkFailed algTokenBucket .canceled), 0⟩) ∧
    (∀ (alg : String) (v : RVal), isIntPair v = false →
      (handleEvalRes alg (.ok v)).allowed = false ∧
      (handleEvalRes alg (.ok v)).goErr.isSome = true) := by
  refine ⟨?_, ?_, ?_, rfl, ?_, ?_, ?_⟩
  · intro e
    cases e <;> simp [shouldFailOpen]
  · intro key cap win nowS e db hc hw
    have hv : ¬ (cap ≤ 0 ∨ win ≤ 0) := by omega
    by_cases hf : shouldFailOpen e = true
    · simp [swCheckGo, evalLuaDB, handleEvalRes, hv, hf]
    · simp [swCheckGo, evalLuaDB, handleEvalRes, hv, hf]
  · intro key cap rate nowMs e db hc hr
    have hv : ¬ (cap ≤ 0 ∨ rate ≤ 0) := by
      push_neg
      exact ⟨hc, hr⟩
    by_cases hf : shouldFailOpen e = true
    · simp [tbCheckGo, evalLuaDB, handleEvalRes, hv, hf]
    · simp [tbCheckGo, evalLuaDB, handleEvalRes, hv, hf]
  · intro key cap win nowS db hc hw
    have hv : ¬ (cap ≤ 0 ∨ win ≤ 0) := by omega
    simp [swCheckGo, evalLuaDB, handleEvalRes, hv, shouldFailOpen]
  · intro key cap rate nowMs db hc hr
    have hv : ¬ (cap ≤ 0 ∨ rate ≤ 0) := by
      push_neg
      exact ⟨hc, hr⟩
    simp [tbCheckGo, evalLuaDB, handleEvalRes, hv, shouldFailOpen]
  · intro alg v hv
    rcases v with n | s | xs
    · simp [handleEvalRes, parseLuaReply]
    · simp [handleEvalRes, parseLuaReply]
    · rcases xs with _ | ⟨a, xs2⟩
      · simp [handleEvalRes, parseLuaReply]
      · rcases xs2 with _ | ⟨b, xs3⟩
        · simp [handleEvalRes, parseLuaReply]
        · rcases xs3 with _ | ⟨c, xs4⟩
          · rcases a with n1 | s1 | l1 <;> rcases b with n2 | s2 | l2 <;>
              simp [handleEvalRes, parseLuaReply, isIntPair] at hv ⊢
          · simp [handleEvalRes, parseLuaReply]

/-- Witness for C4: the cancellation case and a malformed string reply. -/
theorem claim_C4_witness :
    ((swCheckGo ("k") 1 1 0 (.failed .deadlineExceeded) emptyDB).1 =
        ⟨true, 0, none, 1⟩ ↔ shouldFailOpen .deadlineExceeded = true) ∧
    ((swCheckGo ("k") 1 1 0 (.failed .canceled) emptyDB).1 =
      ⟨false, 0, some (.checkFailed algSlidingWindow .canceled), 0⟩) ∧
    ((handleEvalRes algSlidingWindow (.ok (.str ("oops")))).allowed = false ∧
      (handleEvalRes algSlidingWindow (.ok (.str ("oops")))).goErr.isSome = true) :=
  ⟨claim_C4_fail_open_iff_unavailable.2.1 ("k") 1 1 0 .deadlineExceeded emptyDB
      (by decide) (by decide),
   claim_C4_fail_open_iff_unavailable.2.2.2.2.1 ("k") 1 1 0 emptyDB
      (by decide) (by decide),
   claim_C4_fail_open_iff_unavailable.2.2.2.2.2.2 algSlidingWindow (.str ("oops")) rfl⟩

/-- Claim C7: any request with an empty key, an unknown algorithm name, or a
non-positive capacity / refill rate / window fails before any store operation:
the facade returns an error, the keyspace is untouched, and the outcome does
not even depend on what the transport would have done. -/
theorem claim_C7_validation (req : CheckRequest) (nowMs nowS : ℤ) (w : Wire)
    (db : RedisDB)
    (hbad : req.key = "" ∨
      (req.algorithm ≠ algTokenBucket ∧ req.algorithm ≠ algSlidingWindow) ∨
      (req.algorithm = algTokenBucket ∧ (req.capacity ≤ 0 ∨ req.refillRate ≤ 0)) ∨
      (req.algorithm = algSlidingWindow ∧ (req.capacity ≤ 0 ∨ req.windowSeconds ≤ 0))) :
    (∃ ge, (limiterCheck req nowMs nowS w db).1.1 = .error ge) ∧
    (limiterCheck req nowMs nowS w db).2 = db ∧
    (∀ w2, limiterCheck req nowMs nowS w2 db = limiterCheck req nowMs nowS w db) := by
  have hne : ¬ (algSlidingWindow = algTokenBucket) := by decide
  by_cases hk : req.key = ""
  · exact ⟨⟨.emptyKey, by simp [limiterCheck, hk]⟩, by simp [limiterCheck, hk],
      fun w2 => by simp [limiterCheck, hk]⟩
  · rcases hbad with h | ⟨h1, h2⟩ | ⟨h1, h2⟩ | ⟨h1, h2⟩
    · exact absurd h hk
    · exact ⟨⟨.unsupportedAlgorithm req.algorithm,
          by simp [limiterCheck, hk, h1, h2]⟩,
        by simp [limiterCheck, hk, h1, h2],
        fun w2 => by simp [limiterCheck, hk, h1, h2]⟩
    · exact ⟨⟨.invalidParams,
          by simp [limiterCheck, tbCheckGo, tripleResult, hk, h1, h2]⟩,
        by simp [limiterCheck, tbCheckGo, tripleResult, hk, h1, h2],
        fun w2 => by simp [limiterCheck, tbCheckGo, tripleResult, hk, h1, h2]⟩
    · exact ⟨⟨.invalidParams,
          by simp [limiterCheck, swCheckGo, tripleResult, hk, h1, h2, hne]⟩,
        by simp [limiterCheck, swCheckGo, tripleResult, hk, h1, h2, hne],
        fun w2 => by simp [limiterCheck, swCheckGo, tripleResult, hk, h1, h2, hne]⟩

/-- Witness for C7: non-positive capacity under the token bucket. -/
theorem claim_C7_witness :
    (∃ ge, (limiterCheck ⟨("u"), algTokenBucket, -5, 1, 60⟩ 0 0 .delivered emptyDB).1.1 =
      .error ge) ∧
    (limiterCheck ⟨("u"), algTokenBucket, -5, 1, 60⟩ 0 0 .delivered emptyDB).2 = emptyDB ∧
    (∀ w2, limiterCheck ⟨("u"), algTokenBucket, -5, 1, 60⟩ 0 0 w2 emptyDB =
      limiterCheck ⟨("u"), algTokenBucket, -5, 1, 60⟩ 0 0 .delivered emptyDB) :=
  claim_C7_validation ⟨("u"), algTokenBucket, -5, 1, 60⟩ 0 0 .delivered emptyDB
    (Or.inr (Or.inr (Or.inl ⟨rfl, Or.inl (by decide)⟩)))

/-! ### Key isolation -/

lemma append_counter_ne (s : String) : s ++ counterSuffix ≠ s := by
  intro h
  have h1 := congrArg String.length h
  rw [String.length_append] at h1
  have h2 : counterSuffix.length = 8 := rfl
  omega

lemma swScriptDB_frame (key : String) (c win n : ℤ) (db : RedisDB) (k : String)
    (h1 : k ≠ key) (h2 : k ≠ key ++ counterSuffix) :
    (swScriptDB key c win n db).2 k = db k := by
  simp only [swScriptDB]
  rcases zremLocal 0 (n - win) (db key) with m | v0
  · rfl
  · dsimp only
    simp only [Function.update_same]
    rcases zcardLocal v0 with m | cnt
    · exact Function.update_noteq h1 _ _
    · dsimp only
      split_ifs with hlt
      · simp only [Function.update_noteq (append_counter_ne key)]
        rcases incrLocal (db (key ++ counterSuffix)) with m | sv
        · exact Function.update_noteq h1 _ _
        · dsimp only
          simp only [Function.update_noteq (Ne.symm (append_counter_ne key)),
            Function.update_same]
          rcases zaddLocal n (n, sv.1) v0 with m | vz
          · dsimp only
            rw [Function.update_noteq h2, Function.update_noteq h1]
          · dsimp only
            rw [Function.update_noteq h1, Function.update_noteq h2,
              Function.update_noteq h1]
      · exact Function.update_noteq h1 _ _

lemma tbScriptDB_frame (key : String) (cap rate : ℚ) (n : ℤ) (db : RedisDB)
    (k : String) (h1 : k ≠ key) :
    (tbScriptDB key cap rate n db).2 k = db k := by
  simp only [tbScriptDB]
  rcases hmgetLocal (db key) with m | h
  · rfl
  · exact Function.update_noteq h1 _ _

lemma swScriptDB_congr (key : String) (c win n : ℤ) (db db2 : RedisDB)
    (h1 : db key = db2 key)
    (h2 : db (key ++ counterSuffix) = db2 (key ++ counterSuffix)) :
    (swScriptDB key c win n db).1 = (swScriptDB key c win n db2).1 := by
  simp only [swScriptDB]
  rw [h1]
  rcases zremLocal 0 (n - win) (db2 key) with m | v0
  · rfl
  · dsimp only
    simp only [Function.update_same,
      Function.update_noteq (append_counter_ne key)]
    rw [h2]
    rcases zcardLocal v0 with m | cnt
    · rfl
    · dsimp only
      split_ifs with hlt
      · rcases incrLocal (db2 (key ++ counterSuffix)) with m | sv
        · rfl
        · dsimp only
          simp only [Function.update_noteq (Ne.symm (append_counter_ne key)),
            Function.update_same]
          rcases zaddLocal n (n, sv.1) v0 with m | vz
          · rfl
          · rfl
      · rfl

lemma tbScriptDB_congr (key : String) (cap rate : ℚ) (n : ℤ) (db db2 : RedisDB)
    (h1 : db key = db2 key) :
    (tbScriptDB key cap rate n db).1 = (tbScriptDB key cap rate n db2).1 := by
  simp only [tbScriptDB]
  rw [h1]
  rcases hmgetLocal (db2 key) with m | h
  · rfl
  · rfl

lemma evalLuaDB_snd_frame (w : Wire)
    (run : RedisDB → Except String (ℤ × ℤ) × RedisDB) (db : RedisDB) (k : String)
    (hk : (run db).2 k = db k) :
    (evalLuaDB w run db).2 k = db k := by
  cases w with
  | failed e => rfl
  | delivered =>
    simp only [evalLuaDB]
    rcases hrun : run db with ⟨res, db1⟩
    rw [hrun] at hk
    rcases res with m | r
    · exact hk
    · exact hk

lemma evalLuaDB_fst_congr (w : Wire)
    (run run2 : RedisDB → Except String (ℤ × ℤ) × RedisDB) (db db2 : RedisDB)
    (h : (run db).1 = (run2 db2).1) :
    (evalLuaDB w run db).1 = (evalLuaDB w run2 db2).1 := by
  cases w with
  | failed e => rfl
  | delivered =>
    simp only [evalLuaDB]
    rcases hr1 : run db with ⟨res1, d1⟩
    rcases hr2 : run2 db2 with ⟨res2, d2⟩
    rw [hr1, hr2] at h
    dsimp only at h
    subst h
    rcases res1 with m | r
    · rfl
    · rfl

lemma swCheckGo_frame (key : String) (cap win nowS : ℤ) (w : Wire)
    (db : RedisDB) (k : String) (h1 : k ≠ key) (h2 : k ≠ key ++ counterSuffix) :
    (swCheckGo key cap win nowS w db).2 k = db k := by
  simp only [swCheckGo]
  split_ifs with hv
  · rfl
  · exact evalLuaDB_snd_frame w _ db k (swScriptDB_frame key cap win nowS db k h1 h2)

lemma tbCheckGo_frame (key : String) (cap : ℤ) (rate : ℚ) (nowMs : ℤ) (w : Wire)
    (db : RedisDB) (k : String) (h1 : k ≠ key) :
    (tbCheckGo key cap rate nowMs w db).2 k = db k := by
  simp only [tbCheckGo]
  split_ifs with hv
  · rfl
  · exact evalLuaDB_snd_frame w _ db k
      (tbScriptDB_frame key (cap : ℚ) rate nowMs db k h1)

lemma swCheckGo_congr (key : String) (cap win nowS : ℤ) (w : Wire)
    (db db2 : RedisDB) (h1 : db key = db2 key)
    (h2 : db (key ++ counterSuffix) = db2 (key ++ counterSuffix)) :
    (swCheckGo key cap win nowS w db).1 = (swCheckGo key cap win nowS w db2).1 := by
  simp only [swCheckGo]
  split_ifs with hv
  · rfl
  · exact congrArg (handleEvalRes algSlidingWindow)
      (evalLuaDB_fst_congr w _ _ db db2 (swScriptDB_congr key cap win nowS db db2 h1 h2))

lemma tbCheckGo_congr (key : String) (cap : ℤ) (rate : ℚ) (nowMs : ℤ) (w : Wire)
    (db db2 : RedisDB) (h1 : db key = db2 key) :
    (tbCheckGo key cap rate nowMs w db).1 = (tbCheckGo key cap rate nowMs w db2).1 := by
  simp only [tbCheckGo]
  split_ifs with hv
  · rfl
  · exact congrArg (handleEvalRes algTokenBucket)
      (evalLuaDB_fst_congr w _ _ db db2
        (tbScriptDB_congr key (cap : ℚ) rate nowMs db db2 h1))

/-- Claim C8, counterexample to the literal statement: the sliding-window
script keeps its per-key sequence counter at the separate Redis key
`key ++ ":counter"`, so the distinct keys `"a"` and `"a:counter"` do
interfere: a check on `"a"` writes into the slot where `"a:counter"`'s own
state lives, and a subsequent check on `"a:counter"` — which succeeds on the
untouched keyspace — now fails with a propagated `WRONGTYPE` error. -/
theorem claim_C8_counterexample :
    ((swCheckGo ("a") 5 60 100 .delivered emptyDB).2 ("a:counter") ≠
      emptyDB ("a:counter")) ∧
    ((swCheckGo ("a:counter") 5 60 100 .delivered
        ((swCheckGo ("a") 5 60 100 .delivered emptyDB).2)).1.goErr.isSome = true) ∧
    ((swCheckGo ("a:counter") 5 60 100 .delivered emptyDB).1.goErr = none) := by
  refine ⟨?_, ?_, ?_⟩ <;> decide

/-- Claim C8 as amended: isolation holds for all key pairs that do not collide
with the sliding-window counter slot — a check on `req.key` writes only the
slots `req.key` and `req.key ++ ":counter"`, and its outcome depends only on
those two slots; hence for `k2 ∉ {k1, k1 ++ ":counter"}` with
`k2 ++ ":counter" ∉ {k1, k1 ++ ":counter"}`, a check on `k1` neither reads nor
modifies any state of `k2`. -/
theorem claim_C8_amended :
    (∀ (req : CheckRequest) (nowMs nowS : ℤ) (w : Wire) (db : RedisDB) (k : String),
      k ≠ req.key → k ≠ req.key ++ counterSuffix →
      (limiterCheck req nowMs nowS w db).2 k = db k) ∧
    (∀ (req : CheckRequest) (nowMs nowS : ℤ) (w : Wire) (db db2 : RedisDB),
      db req.key = db2 req.key →
      db (req.key ++ counterSuffix) = db2 (req.key ++ counterSuffix) →
      (limiterCheck req nowMs nowS w db).1 = (limiterCheck req nowMs nowS w db2).1) := by
  constructor
  · intro req nowMs nowS w db k h1 h2
    simp only [limiterCheck]
    split_ifs with ha hb hc
    · rfl
    · exact tbCheckGo_frame req.key req.capacity req.refillRate nowMs w db k h1
    · exact swCheckGo_frame req.key req.capacity req.windowSeconds nowS w db k h1 h2
    · rfl
  · intro req nowMs nowS w db db2 h1 h2
    simp only [limiterCheck]
    split_ifs with ha hb hc
    · rfl
    · rw [tbCheckGo_congr req.key req.capacity req.refillRate nowMs w db db2 h1]
    · rw [swCheckGo_congr req.key req.capacity req.windowSeconds nowS w db db2 h1 h2]
    · rfl

/-- Witness for the amended C8: a token-bucket check on `"a"` leaves the
unrelated key `"b"` untouched, and its decision ignores `"b"`'s state. -/
theorem claim_C8_amended_witness :
    ((limiterCheck ⟨("a"), algTokenBucket, 5, 1, 60⟩ 0 0 .delivered emptyDB).2 ("b") =
      emptyDB ("b")) ∧
    ((limiterCheck ⟨("a"), algTokenBucket, 5, 1, 60⟩ 0 0 .delivered emptyDB).1 =
      (limiterCheck ⟨("a"), algTokenBucket, 5, 1, 60⟩ 0 0 .delivered
        (Function.update emptyDB ("b") (some (.intStr 7)))).1) :=
  ⟨claim_C8_amended.1 ⟨("a"), algTokenBucket, 5, 1, 60⟩ 0 0 .delivered emptyDB ("b")
      (by decide) (by decide),
   claim_C8_amended.2 ⟨("a"), algTokenBucket, 5, 1, 60⟩ 0 0 .delivered emptyDB
      (Function.update emptyDB ("b") (some (.intStr 7)))
      (by rw [Function.update_noteq (by decide)])
      (by rw [Function.update_noteq (by decide)])⟩

end RateLimiter
